import Mathlib

/-!
Verification of the Mandelbrot escape-time renderer in `src/fractal.cpp` and
`src/unnamed/part_000`.  The C++ `long double` arithmetic is embedded as exact
rational arithmetic: `std::complex<long double>` becomes a pair of rationals,
and the loop guard `std::abs(z) <= 2.0` is rendered as `normSq z ≤ 4`, which
over exact arithmetic is equivalent (and is the squared-magnitude form the
spec itself endorses).
-/

namespace Fractal

/-- A complex number, mirroring `std::complex<long double>`. -/
structure Cx where
  re : ℚ
  im : ℚ
deriving DecidableEq

/-- Complex addition. -/
def cxAdd (a b : Cx) : Cx := ⟨a.re + b.re, a.im + b.im⟩

/-- Complex multiplication. -/
def cxMul (a b : Cx) : Cx :=
  ⟨a.re * b.re - a.im * b.im, a.re * b.im + a.im * b.re⟩

/-- Squared modulus of a complex number; `|z| ≤ 2` holds iff `normSq z ≤ 4`. -/
def normSq (z : Cx) : ℚ := z.re * z.re + z.im * z.im

/-- One execution of the loop body: `z = z * z + c`. -/
def stepZ (z c : Cx) : Cx := cxAdd (cxMul z z) c

/-- The escape-time loop of `drawRegion` (`src/fractal.cpp` lines 39-47,
`src/unnamed/part_000` lines 69-77):

    while (std::abs(z) <= 2.0 && iterations < dynamicMaxIter) \x7b
        z = z * z + c;
        ++iterations;
    \x7d

`fuel` stands for `dynamicMaxIter - iterations`, so `fuel = 0` is exactly the
failure of `iterations < dynamicMaxIter`; the function returns the final value
of `iterations`. -/
def evalFrom (c : Cx) : Cx → ℕ → ℕ → ℕ
  | _, iter, 0 => iter
  | z, iter, fuel + 1 =>
    if normSq z ≤ 4 then evalFrom c (stepZ z c) (iter + 1) fuel else iter

/-- The escape-time evaluator: starts from `z = 0 + 0i`, `c = x0 + y0 i`,
`iterations = 0`, with `fuel = maxIter - 0`. -/
def evaluate (x0 y0 : ℚ) (maxIter : ℕ) : ℕ :=
  evalFrom ⟨x0, y0⟩ ⟨0, 0⟩ 0 maxIter

/-- The orbit of the iteration: `orbit c k` is the value of `z` after `k`
executions of the loop body, starting from `z = 0`. -/
def orbit (c : Cx) : ℕ → Cx
  | 0 => ⟨0, 0⟩
  | k + 1 => stepZ (orbit c k) c

/-- The orbit started from an arbitrary accumulator `z`, matching the shape of
the recursion in `evalFrom`. -/
def orbitFrom (c z : Cx) : ℕ → Cx
  | 0 => z
  | k + 1 => orbitFrom c (stepZ z c) k

/-- Raster width: `const int WIDTH = 800`. -/
def WIDTH : ℕ := 800

/-- Raster height: `const int HEIGHT = 800`. -/
def HEIGHT : ℕ := 800

/-- Base iteration budget: `const int BASE_ITER = 250` in
`src/unnamed/part_000`. -/
def BASE_ITER : ℤ := 250

/-- Hard cap on the iteration budget: `const int MAX_ITER = 10000` in
`src/unnamed/part_000` ("Max iterations to prevent runaway values"). -/
def MAX_ITER : ℤ := 10000

/-- The viewport bounds `xMin, xMax, yMin, yMax` (global `long double`s in the
source, embedded as exact rationals). -/
structure Viewport where
  xMin : ℚ
  xMax : ℚ
  yMin : ℚ
  yMax : ℚ
deriving DecidableEq

/-- The home bounds captured at startup:
`initialXMin = -2.0, initialXMax = 1.0, initialYMin = -1.5, initialYMax = 1.5`. -/
def homeViewport : Viewport := ⟨-2, 1, -3/2, 3/2⟩

/-- Pixel-to-complex map, x axis: `x0 = xMin + (xMax - xMin) * px / WIDTH`
(`src/fractal.cpp` line 36). -/
def pixelToComplexX (v : Viewport) (px : ℤ) : ℚ :=
  v.xMin + (v.xMax - v.xMin) * px / WIDTH

/-- Pixel-to-complex map, y axis: `y0 = yMin + (yMax - yMin) * py / HEIGHT`
(`src/fractal.cpp` line 37). -/
def pixelToComplexY (v : Viewport) (py : ℤ) : ℚ :=
  v.yMin + (v.yMax - v.yMin) * py / HEIGHT

/-- Click-zoom from the `WM_LBUTTONDOWN` handler (all variants): recenter on
the complex point under the mouse and shrink both extents by the fixed factor
`0.1`; no floor check appears anywhere in the handler. -/
def clickZoom (v : Viewport) (mouseX mouseY : ℤ) : Viewport :=
  let centerX := v.xMin + (v.xMax - v.xMin) * mouseX / WIDTH
  let centerY := v.yMin + (v.yMax - v.yMin) * mouseY / HEIGHT
  let zoomFactor : ℚ := 1/10
  let newWidth := (v.xMax - v.xMin) * zoomFactor
  let newHeight := (v.yMax - v.yMin) * zoomFactor
  ⟨centerX - newWidth / 2, centerX + newWidth / 2,
   centerY - newHeight / 2, centerY + newHeight / 2⟩

/-- Textual `zoom <factor>` command from `handleUserInput` in
`src/fractal.cpp`: scale both extents by the given factor around the current
center; no floor check appears in the handler. -/
def zoomCommand (v : Viewport) (zoomFactor : ℚ) : Viewport :=
  let newWidth := (v.xMax - v.xMin) * zoomFactor
  let newHeight := (v.yMax - v.yMin) * zoomFactor
  let centerX := (v.xMax + v.xMin) / 2
  let centerY := (v.yMax + v.yMin) / 2
  ⟨centerX - newWidth / 2, centerX + newWidth / 2,
   centerY - newHeight / 2, centerY + newHeight / 2⟩

/-- Repeated click-zoom at the image center pixel `(400, 400)` starting from
the home viewport. -/
def zoomSeq : ℕ → Viewport
  | 0 => homeViewport
  | n + 1 => clickZoom (zoomSeq n) 400 400

/-- The `iterations <n>` command handler (`src/unnamed/part_000` lines
115-123): clamp the parsed value from above to `MAX_ITER` and store it; there
is no check against negative values. -/
def setIterations (newIterations : ℤ) : ℤ :=
  if newIterations > MAX_ITER then MAX_ITER else newIterations

/-- The automatic budget increase after a click-zoom
(`src/unnamed/part_000` lines 189-196): add 250 and clamp to `MAX_ITER`. -/
def onZoomIn (b : ℤ) : ℤ :=
  let newIterations := b + 250
  if newIterations > MAX_ITER then MAX_ITER else newIterations

/-- An RGB color, mirroring the `COLORREF` produced by the `RGB` macro. -/
structure Color where
  r : ℤ
  g : ℤ
  b : ℤ
deriving DecidableEq

/-- C++ `static_cast<int>` on a floating value: truncation toward zero. -/
def cxxTrunc (q : ℚ) : ℤ := if 0 ≤ q then ⌊q⌋ else -⌊-q⌋

/-- The color mapper `getColor` of `src/unnamed/part_000` lines 31-57.  The
literal `8.5` is written `17/2`.  Colorized channels are clamped from above to
`maxColorValue = 255`; grayscale is `255 * t`. -/
def getColor (useColor : Bool) (iterations maxIter : ℤ) : Color :=
  if iterations = maxIter then ⟨0, 0, 0⟩
  else
    let t : ℚ := (iterations : ℚ) / (maxIter : ℚ)
    if useColor then
      let r := cxxTrunc (9 * (1 - t) * t * t * t * 255)
      let g := cxxTrunc (15 * (1 - t) * (1 - t) * t * t * 255)
      let b := cxxTrunc (17/2 * (1 - t) * (1 - t) * (1 - t) * t * 255)
      let maxColorValue : ℤ := 255
      ⟨if r > maxColorValue then maxColorValue else r,
       if g > maxColorValue then maxColorValue else g,
       if b > maxColorValue then maxColorValue else b⟩
    else
      let gray := cxxTrunc (255 * t)
      ⟨gray, gray, gray⟩

/-- The mutable application state shared by the handlers: current viewport,
the home bounds, `currentMaxIter` and the `useColor` flag. -/
structure AppState where
  viewport : Viewport
  home : Viewport
  budget : ℤ
  useColor : Bool
deriving DecidableEq

/-- The value loaded into `dynamicMaxIter` inside the render loop:
`int dynamicMaxIter = currentMaxIter.load();` (`src/unnamed/part_000` line 73,
`src/fractal.cpp` line 43) — the stored budget, with no adjustment based on
the viewport. -/
def effectiveMaxIter (s : AppState) : ℤ := s.budget

/-- One pixel of `drawRegion`: pixel to complex point via the viewport,
escape-time evaluation with `dynamicMaxIter`, then the color map.  A negative
`dynamicMaxIter` makes the loop guard `iterations < dynamicMaxIter` fail at
once, which `Int.toNat` models by zero fuel. -/
def drawRegionPixel (s : AppState) (px py : ℤ) : Color :=
  let x0 := pixelToComplexX s.viewport px
  let y0 := pixelToComplexY s.viewport py
  let dynamicMaxIter := effectiveMaxIter s
  getColor s.useColor
    ((evaluate x0 y0 dynamicMaxIter.toNat : ℕ) : ℤ) dynamicMaxIter

/-- Rows per worker in `drawMandelbrot`:
`const int rowsPerThread = HEIGHT / numThreads;` generalized over the raster
height. -/
def rowsPerThread (numThreads h : ℕ) : ℕ := h / numThreads

/-- Band start: `int startRow = i * rowsPerThread;`. -/
def startRow (numThreads h i : ℕ) : ℕ := i * rowsPerThread numThreads h

/-- Band end:
`int endRow = (i == numThreads - 1) ? HEIGHT : (i + 1) * rowsPerThread;`. -/
def endRow (numThreads h i : ℕ) : ℕ :=
  if i = numThreads - 1 then h else (i + 1) * rowsPerThread numThreads h

/-- Row `r` lies in the band of worker `i`: `drawRegion` iterates `py` from
`startRow` (inclusive) to `endRow` (exclusive). -/
def inBand (numThreads h i r : ℕ) : Prop :=
  startRow numThreads h i ≤ r ∧ r < endRow numThreads h i

instance (T h i r : ℕ) : Decidable (inBand T h i r) := by
  unfold inBand
  infer_instance

/-- The user mutations of the application state, combining the command paths
of `handleUserInput`, the `WM_LBUTTONDOWN` click-zoom, and the textual `zoom`
command of `src/fractal.cpp`. -/
inductive Cmd where
  | setIter (n : ℤ)
  | reset
  | toggle
  | clickZoomAt (mouseX mouseY : ℤ)
  | zoomBy (factor : ℚ)

/-- Effect of one user mutation on the state.  `reset` copies the initial
bounds back into the viewport and touches nothing else; no handler ever
writes the `initial...` globals, so `home` is invariant. -/
def applyCmd (s : AppState) : Cmd → AppState
  | Cmd.setIter n => { s with budget := setIterations n }
  | Cmd.reset => { s with viewport := s.home }
  | Cmd.toggle => { s with useColor := !s.useColor }
  | Cmd.clickZoomAt mx my =>
      { s with viewport := clickZoom s.viewport mx my, budget := onZoomIn s.budget }
  | Cmd.zoomBy f => { s with viewport := zoomCommand s.viewport f }

/-- The startup state of `src/unnamed/part_000`: home bounds captured from
the initial viewport, `currentMaxIter = BASE_ITER`, color mode on. -/
def initState : AppState :=
  { viewport := homeViewport, home := homeViewport,
    budget := BASE_ITER, useColor := true }

/-- A state whose viewport is five click-zooms deep (width `3e-5 < 1e-4`)
with the budget at the hard cap. -/
def narrowState : AppState :=
  { viewport := ⟨-1/2 - 3/200000, -1/2 + 3/200000, -(3/200000), 3/200000⟩,
    home := homeViewport, budget := 10000, useColor := true }

/-- A state whose stored budget is zero. -/
def zeroBudgetState : AppState :=
  { viewport := homeViewport, home := homeViewport,
    budget := 0, useColor := false }

lemma orbitFrom_succ_out (c : Cx) :
    ∀ (z : Cx) (k : ℕ), orbitFrom c z (k + 1) = stepZ (orbitFrom c z k) c := by
  intro z k
  induction k generalizing z with
  | zero => rfl
  | succ k ih =>
    have h1 : orbitFrom c z (k + 1 + 1) = orbitFrom c (stepZ z c) (k + 1) := rfl
    have h2 : orbitFrom c z (k + 1) = orbitFrom c (stepZ z c) k := rfl
    rw [h1, h2, ih (stepZ z c)]

lemma orbit_eq_orbitFrom (c : Cx) : ∀ k, orbit c k = orbitFrom c ⟨0, 0⟩ k := by
  intro k
  induction k with
  | zero => rfl
  | succ k ih => rw [orbit, ih, orbitFrom_succ_out]

lemma evalFrom_le (c : Cx) :
    ∀ (z : Cx) (iter fuel : ℕ), evalFrom c z iter fuel ≤ iter + fuel := by
  intro z iter fuel
  induction fuel generalizing z iter with
  | zero => simp [evalFrom]
  | succ f ih =>
    simp only [evalFrom]
    split
    · exact le_trans (ih (stepZ z c) (iter + 1)) (by omega)
    · omega

lemma evalFrom_eq_iff (c : Cx) :
    ∀ (z : Cx) (iter fuel : ℕ),
      evalFrom c z iter fuel = iter + fuel ↔
        ∀ k < fuel, normSq (orbitFrom c z k) ≤ 4 := by
  intro z iter fuel
  induction fuel generalizing z iter with
  | zero => simp [evalFrom]
  | succ f ih =>
    simp only [evalFrom]
    by_cases h : normSq z ≤ 4
    · rw [if_pos h]
      constructor
      · intro he k hk
        match k with
        | 0 => exact h
        | k + 1 =>
          have he2 : evalFrom c (stepZ z c) (iter + 1) f = (iter + 1) + f := by
            omega
          have hall := (ih (stepZ z c) (iter + 1)).mp he2
          have hk2 : k < f := by omega
          exact hall k hk2
      · intro hall
        have h0 : ∀ k < f, normSq (orbitFrom c (stepZ z c) k) ≤ 4 :=
          fun k hk => hall (k + 1) (by omega)
        have := (ih (stepZ z c) (iter + 1)).mpr h0
        omega
    · rw [if_neg h]
      constructor
      · intro he
        omega
      · intro hall
        exact absurd (hall 0 (by omega)) h

/-- Claim C1: the escape-time evaluator, started from `z = 0` and
`c = x0 + y0 i`, applies `z ← z*z + c` while `|z| ≤ 2` and the step count is
below `maxIter`, returns the step count (hence at most `maxIter`), and the
returned value equals `maxIter` exactly when `z` never exceeded modulus 2
before the budget was exhausted. -/
theorem evaluate_escape_characterization (x0 y0 : ℚ) (m : ℕ) :
    evaluate x0 y0 m ≤ m ∧
      (evaluate x0 y0 m = m ↔ ∀ k < m, normSq (orbit ⟨x0, y0⟩ k) ≤ 4) := by
  constructor
  · simpa using evalFrom_le ⟨x0, y0⟩ ⟨0, 0⟩ 0 m
  · have h := evalFrom_eq_iff ⟨x0, y0⟩ ⟨0, 0⟩ 0 m
    simp only [evaluate]
    constructor
    · intro he k hk
      rw [orbit_eq_orbitFrom]
      exact (h.mp (by omega)) k hk
    · intro hall
      have : ∀ k < m, normSq (orbitFrom ⟨x0, y0⟩ ⟨0, 0⟩ k) ≤ 4 := by
        intro k hk
        rw [← orbit_eq_orbitFrom]
        exact hall k hk
      have := h.mpr this
      omega

lemma stepZ_zero : stepZ ⟨0, 0⟩ ⟨0, 0⟩ = ⟨0, 0⟩ := by
  simp [stepZ, cxMul, cxAdd]

lemma evalFrom_origin : ∀ (fuel iter : ℕ),
    evalFrom ⟨0, 0⟩ ⟨0, 0⟩ iter fuel = iter + fuel := by
  intro fuel
  induction fuel with
  | zero => intro iter; simp [evalFrom]
  | succ f ih =>
    intro iter
    have hns : normSq (⟨0, 0⟩ : Cx) ≤ 4 := by simp [normSq]
    simp only [evalFrom, if_pos hns, stepZ_zero]
    rw [ih (iter + 1)]
    omega

/-- Claim C8: at the origin (`x0 = 0`, `y0 = 0`) the evaluator always returns
exactly `maxIter`: `z` stays at `0`, so the loop runs out its budget and the
origin is classified as interior. -/
theorem evaluate_origin (m : ℕ) : evaluate 0 0 m = m := by
  simpa [evaluate] using evalFrom_origin m 0

/-- Claim C7: for a viewport with ordered bounds, the pixel-to-complex map is
monotone in both pixel axes and reproduces the four corner bounds exactly at
`px ∈ \x7b0, WIDTH\x7d`, `py ∈ \x7b0, HEIGHT\x7d`. -/
theorem pixelToComplex_monotone_corners (v : Viewport)
    (hx : v.xMin < v.xMax) (hy : v.yMin < v.yMax) :
    (∀ px qx : ℤ, px ≤ qx → pixelToComplexX v px ≤ pixelToComplexX v qx) ∧
    (∀ py qy : ℤ, py ≤ qy → pixelToComplexY v py ≤ pixelToComplexY v qy) ∧
    pixelToComplexX v 0 = v.xMin ∧
    pixelToComplexX v (WIDTH : ℕ) = v.xMax ∧
    pixelToComplexY v 0 = v.yMin ∧
    pixelToComplexY v (HEIGHT : ℕ) = v.yMax := by
  refine ⟨?_, ?_, ?_, ?_, ?_, ?_⟩
  · intro px qx h
    have hpq : (px : ℚ) ≤ qx := by exact_mod_cast h
    have hw : (0:ℚ) ≤ v.xMax - v.xMin := by linarith
    have h2 := mul_le_mul_of_nonneg_left hpq hw
    simp only [pixelToComplexX, WIDTH]
    push_cast
    linarith
  · intro py qy h
    have hpq : (py : ℚ) ≤ qy := by exact_mod_cast h
    have hw : (0:ℚ) ≤ v.yMax - v.yMin := by linarith
    have h2 := mul_le_mul_of_nonneg_left hpq hw
    simp only [pixelToComplexY, HEIGHT]
    push_cast
    linarith
  · simp [pixelToComplexX]
  · simp only [pixelToComplexX, WIDTH]
    push_cast
    ring
  · simp [pixelToComplexY]
  · simp only [pixelToComplexY, HEIGHT]
    push_cast
    ring

/-- Witness for claim C7 at the home viewport. -/
theorem pixelToComplex_monotone_corners_witness :
    pixelToComplexX homeViewport (WIDTH : ℕ) = homeViewport.xMax :=
  (pixelToComplex_monotone_corners homeViewport (by norm_num [homeViewport])
    (by norm_num [homeViewport])).2.2.2.1

lemma clickZoom_width (v : Viewport) (mx my : ℤ) :
    (clickZoom v mx my).xMax - (clickZoom v mx my).xMin
      = (v.xMax - v.xMin) / 10 := by
  simp only [clickZoom]
  ring

lemma zoomSeq_width : ∀ n, (zoomSeq n).xMax - (zoomSeq n).xMin = 3 / 10 ^ n := by
  intro n
  induction n with
  | zero => norm_num [zoomSeq, homeViewport]
  | succ n ih =>
    rw [zoomSeq, clickZoom_width, ih]
    ring

/-- Counterexample for claim C2: the source has no minimum-zoom floor.  Five
click-zooms take the width to `3e-5`, strictly below the smallest fixed
constant the spec exhibits (`1e-4`), and the fifth mutation is applied rather
than refused or clamped: it still changes the viewport. -/
theorem zoom_floor_counterexample :
    (zoomSeq 5).xMax - (zoomSeq 5).xMin = 3/100000 ∧
    (3 : ℚ)/100000 < 1/10000 ∧
    (zoomSeq 4).xMax - (zoomSeq 4).xMin = 3/10000 ∧
    zoomSeq 5 ≠ zoomSeq 4 := by
  have h5 : (zoomSeq 5).xMax - (zoomSeq 5).xMin = 3/100000 := by
    rw [zoomSeq_width]
    norm_num
  have h4 : (zoomSeq 4).xMax - (zoomSeq 4).xMin = 3/10000 := by
    rw [zoomSeq_width]
    norm_num
  refine ⟨h5, by norm_num, h4, ?_⟩
  intro h
  rw [h, h4] at h5
  norm_num at h5

/-- Claim C2 amended: no zoom mutation is ever refused or clamped — a
click-zoom always multiplies the width by exactly `1/10` and a textual zoom by
its factor — so the width drops below any fixed floor after enough zoom-ins;
what survives of the claim is that in exact arithmetic every zoom with a
positive factor keeps `xMin < xMax` and `yMin < yMax`, so `xMin = xMax` never
holds. -/
theorem zoom_no_floor_amended (v : Viewport) (mx my : ℤ) (f : ℚ)
    (hx : v.xMin < v.xMax) (hy : v.yMin < v.yMax) (hf : 0 < f) :
    ((clickZoom v mx my).xMax - (clickZoom v mx my).xMin
        = (v.xMax - v.xMin) * (1/10) ∧
      (clickZoom v mx my).xMin < (clickZoom v mx my).xMax ∧
      (clickZoom v mx my).yMin < (clickZoom v mx my).yMax) ∧
    ((zoomCommand v f).xMax - (zoomCommand v f).xMin
        = (v.xMax - v.xMin) * f ∧
      (zoomCommand v f).xMin < (zoomCommand v f).xMax ∧
      (zoomCommand v f).yMin < (zoomCommand v f).yMax) := by
  have hxw : (0:ℚ) < v.xMax - v.xMin := by linarith
  have hyw : (0:ℚ) < v.yMax - v.yMin := by linarith
  refine ⟨⟨?_, ?_, ?_⟩, ⟨?_, ?_, ?_⟩⟩
  · simp only [clickZoom]
    ring
  · simp only [clickZoom]
    nlinarith
  · simp only [clickZoom]
    nlinarith
  · simp only [zoomCommand]
    ring
  · simp only [zoomCommand]
    nlinarith [mul_pos hxw hf]
  · simp only [zoomCommand]
    nlinarith [mul_pos hyw hf]

/-- Witness for the amended claim C2 at the home viewport. -/
theorem zoom_no_floor_amended_witness :
    ((clickZoom homeViewport 400 400).xMax - (clickZoom homeViewport 400 400).xMin
        = (homeViewport.xMax - homeViewport.xMin) * (1/10) ∧
      (clickZoom homeViewport 400 400).xMin < (clickZoom homeViewport 400 400).xMax ∧
      (clickZoom homeViewport 400 400).yMin < (clickZoom homeViewport 400 400).yMax) ∧
    ((zoomCommand homeViewport (1/2)).xMax - (zoomCommand homeViewport (1/2)).xMin
        = (homeViewport.xMax - homeViewport.xMin) * (1/2) ∧
      (zoomCommand homeViewport (1/2)).xMin < (zoomCommand homeViewport (1/2)).xMax ∧
      (zoomCommand homeViewport (1/2)).yMin < (zoomCommand homeViewport (1/2)).yMax) :=
  zoom_no_floor_amended homeViewport 400 400 (1/2)
    (by norm_num [homeViewport]) (by norm_num [homeViewport]) (by norm_num)

/-- Counterexample for claim C3: the `iterations` command stores a negative
value unchanged — `std::stoi` happily parses `-5` and the handler only checks
the upper bound — so the budget invariant `0 ≤ budget` can be violated. -/
theorem budget_negative_counterexample :
    setIterations (-5) = -5 ∧ setIterations (-5) < 0 := by
  constructor <;> decide

/-- Claim C3 amended: every budget mutation clamps from above — the
`iterations` command never stores more than `MAX_ITER`, and the automatic
`+250` after a zoom keeps a budget within `[0, MAX_ITER]` — but the
`iterations` command does not clamp from below, so a negative request is
stored as-is. -/
theorem budget_clamp_amended (n b : ℤ) (hb0 : 0 ≤ b) (hbc : b ≤ MAX_ITER) :
    setIterations n ≤ MAX_ITER ∧ 0 ≤ onZoomIn b ∧ onZoomIn b ≤ MAX_ITER ∧
      (n < 0 → setIterations n = n) := by
  simp only [setIterations, onZoomIn, MAX_ITER] at *
  refine ⟨?_, ?_, ?_, ?_⟩
  · split <;> omega
  · split <;> omega
  · split <;> omega
  · intro hn
    split <;> omega

/-- Witness for the amended claim C3. -/
theorem budget_clamp_amended_witness :
    setIterations 20000 ≤ MAX_ITER ∧ 0 ≤ onZoomIn 9900 ∧
      onZoomIn 9900 ≤ MAX_ITER ∧ ((20000 : ℤ) < 0 → setIterations 20000 = 20000) :=
  budget_clamp_amended 20000 9900 (by decide) (by decide)

lemma cube_weight_le (u : ℚ) : u * u * u * (1 - u) ≤ 27 / 256 := by
  nlinarith [mul_nonneg (sq_nonneg (4 * u - 3))
    (show (0:ℚ) ≤ 16 * u ^ 2 + 8 * u + 3 by nlinarith [sq_nonneg (4 * u + 1)]),
    sq_nonneg u]

lemma cxxTrunc_nonneg (x : ℚ) (h : 0 ≤ x) : 0 ≤ cxxTrunc x := by
  simp only [cxxTrunc, if_pos h]
  exact Int.floor_nonneg.mpr h

lemma cxxTrunc_le_255 (x : ℚ) (h0 : 0 ≤ x) (h : x ≤ 255) : cxxTrunc x ≤ 255 := by
  simp only [cxxTrunc, if_pos h0]
  have h255 : ⌊(255:ℚ)⌋ = 255 := by norm_num
  calc ⌊x⌋ ≤ ⌊(255:ℚ)⌋ := Int.floor_le_floor h
    _ = 255 := h255

lemma clamp255_bounds (a : ℤ) (h0 : 0 ≤ a) :
    0 ≤ (if a > 255 then 255 else a) ∧ (if a > 255 then 255 else a) ≤ 255 := by
  split <;> omega

/-- Claim C5: the color mapper returns the fixed interior color black in both
palette modes when `i = m`; and for `0 ≤ i < m` every output channel, in both
the colorized cubic palette and the grayscale palette, lies within
`[0, 255]`. -/
theorem getColor_interior_and_range (mode : Bool) (i m : ℤ)
    (h0 : 0 ≤ i) (him : i ≤ m) (hm : 0 < m) :
    (i = m → getColor mode i m = ⟨0, 0, 0⟩) ∧
    (i < m →
      0 ≤ (getColor mode i m).r ∧ (getColor mode i m).r ≤ 255 ∧
      0 ≤ (getColor mode i m).g ∧ (getColor mode i m).g ≤ 255 ∧
      0 ≤ (getColor mode i m).b ∧ (getColor mode i m).b ≤ 255) := by
  constructor
  · intro h
    simp [getColor, h]
  · intro hlt
    have hne : i ≠ m := ne_of_lt hlt
    have hm0 : (0:ℚ) < (m : ℚ) := by exact_mod_cast hm
    set t : ℚ := (i : ℚ) / (m : ℚ) with ht
    have ht0 : 0 ≤ t := div_nonneg (by exact_mod_cast h0) (le_of_lt hm0)
    have ht1 : t < 1 := by
      rw [ht, div_lt_one hm0]
      exact_mod_cast hlt
    have h1t : 0 ≤ 1 - t := by linarith
    have hr0 : 0 ≤ 9 * (1 - t) * t * t * t * 255 := by
      have h9 : (0:ℚ) ≤ 9 * (1 - t) := by linarith
      exact mul_nonneg (mul_nonneg (mul_nonneg (mul_nonneg h9 ht0) ht0) ht0)
        (by norm_num)
    have hrB : 9 * (1 - t) * t * t * t * 255 ≤ 255 := by
      nlinarith [cube_weight_le t]
    have hg0 : 0 ≤ 15 * (1 - t) * (1 - t) * t * t * 255 := by
      have h15 : (0:ℚ) ≤ 15 * (1 - t) := by linarith
      exact mul_nonneg (mul_nonneg (mul_nonneg (mul_nonneg h15 h1t) ht0) ht0)
        (by norm_num)
    have hgB : 15 * (1 - t) * (1 - t) * t * t * 255 ≤ 255 := by
      have hu : t * (1 - t) ≤ 1/4 := by nlinarith [sq_nonneg (2 * t - 1)]
      have hu0 : 0 ≤ t * (1 - t) := mul_nonneg ht0 h1t
      have husq : (t * (1 - t)) * (t * (1 - t)) ≤ (1/4) * (1/4) :=
        mul_le_mul hu hu hu0 (by norm_num)
      nlinarith [husq]
    have hb0 : 0 ≤ 17/2 * (1 - t) * (1 - t) * (1 - t) * t * 255 := by
      have h17 : (0:ℚ) ≤ 17/2 * (1 - t) := by linarith
      exact mul_nonneg (mul_nonneg (mul_nonneg (mul_nonneg h17 h1t) h1t) ht0)
        (by norm_num)
    have hbB : 17/2 * (1 - t) * (1 - t) * (1 - t) * t * 255 ≤ 255 := by
      nlinarith [cube_weight_le (1 - t)]
    have hgray0 : 0 ≤ 255 * t := by linarith
    have hgrayB : 255 * t ≤ 255 := by linarith
    cases mode with
    | false =>
      simp only [getColor, if_neg hne, Bool.false_eq_true, if_false, ← ht]
      exact ⟨cxxTrunc_nonneg _ hgray0, cxxTrunc_le_255 _ hgray0 hgrayB,
        cxxTrunc_nonneg _ hgray0, cxxTrunc_le_255 _ hgray0 hgrayB,
        cxxTrunc_nonneg _ hgray0, cxxTrunc_le_255 _ hgray0 hgrayB⟩
    | true =>
      simp only [getColor, if_neg hne, if_true, ← ht]
      refine ⟨(clamp255_bounds _ (cxxTrunc_nonneg _ hr0)).1,
        (clamp255_bounds _ (cxxTrunc_nonneg _ hr0)).2,
        (clamp255_bounds _ (cxxTrunc_nonneg _ hg0)).1,
        (clamp255_bounds _ (cxxTrunc_nonneg _ hg0)).2,
        (clamp255_bounds _ (cxxTrunc_nonneg _ hb0)).1,
        (clamp255_bounds _ (cxxTrunc_nonneg _ hb0)).2⟩

/-- Witness for claim C5 at `i = 3`, `m = 6`. -/
theorem getColor_interior_and_range_witness :
    ((3:ℤ) = 6 → getColor true 3 6 = ⟨0, 0, 0⟩) ∧
    ((3:ℤ) < 6 →
      0 ≤ (getColor true 3 6).r ∧ (getColor true 3 6).r ≤ 255 ∧
      0 ≤ (getColor true 3 6).g ∧ (getColor true 3 6).g ≤ 255 ∧
      0 ≤ (getColor true 3 6).b ∧ (getColor true 3 6).b ≤ 255) :=
  getColor_interior_and_range true 3 6 (by decide) (by decide) (by decide)

/-- Claim C6: for every worker count `T ≥ 1` and raster height, the band
partition of `drawMandelbrot` — band `i` spans
`[i * (h / T), (i + 1) * (h / T))` with the last band extended to `h` — covers
exactly the rows `0 .. h - 1`, each row lying in exactly one band. -/
theorem bands_partition (T h r : ℕ) (hT : 1 ≤ T) :
    ((∃ i, i < T ∧ inBand T h i r) ↔ r < h) ∧
    (∀ i j, i < T → j < T → inBand T h i r → inBand T h j r → i = j) := by
  set q := h / T with hq
  have hTq : T * q ≤ h := by
    rw [hq, Nat.mul_comm]
    exact Nat.div_mul_le_self h T
  constructor
  · constructor
    · rintro ⟨i, hiT, hs, he⟩
      by_cases hlast : i = T - 1
      · unfold endRow at he
        rw [if_pos hlast] at he
        exact he
      · unfold endRow rowsPerThread at he
        rw [← hq, if_neg hlast] at he
        have hmul : (i + 1) * q ≤ T * q :=
          Nat.mul_le_mul (by omega) (Nat.le_refl q)
        omega
    · intro hr
      by_cases hcase : r < (T - 1) * q
      · have hq0 : 0 < q := by
          rcases Nat.eq_zero_or_pos q with hz | hz
          · rw [hz, Nat.mul_zero] at hcase
            omega
          · exact hz
        have hdiv : r / q < T - 1 := by
          rw [Nat.div_lt_iff_lt_mul hq0]
          exact hcase
        refine ⟨r / q, by omega, ?_, ?_⟩
        · unfold startRow rowsPerThread
          rw [← hq]
          exact Nat.div_mul_le_self r q
        · unfold endRow rowsPerThread
          rw [← hq, if_neg (by omega : ¬ r / q = T - 1)]
          exact (Nat.div_lt_iff_lt_mul hq0).mp (Nat.lt_succ_self (r / q))
      · refine ⟨T - 1, by omega, ?_, ?_⟩
        · unfold startRow rowsPerThread
          rw [← hq]
          omega
        · unfold endRow
          rw [if_pos rfl]
          exact hr
  · have key : ∀ a b, a < b → b < T → inBand T h a r → inBand T h b r → False := by
      intro a b hab hbT ha hb
      obtain ⟨hsa, hea⟩ := ha
      obtain ⟨hsb, heb⟩ := hb
      have ha_ne : ¬ a = T - 1 := by omega
      unfold endRow rowsPerThread at hea
      rw [← hq, if_neg ha_ne] at hea
      unfold startRow rowsPerThread at hsb
      rw [← hq] at hsb
      have hmul : (a + 1) * q ≤ b * q :=
        Nat.mul_le_mul (by omega) (Nat.le_refl q)
      omega
    intro i j hiT hjT hi hj
    rcases Nat.lt_trichotomy i j with h1 | h1 | h1
    · exact absurd (key i j h1 hjT hi hj) (by simp)
    · exact h1
    · exact absurd (key j i h1 hiT hj hi) (by simp)

/-- Witness for claim C6 with six workers on the 800-row raster. -/
theorem bands_partition_witness :
    ((∃ i, i < 6 ∧ inBand 6 800 i 400) ↔ 400 < 800) ∧
    (∀ i j, i < 6 → j < 6 → inBand 6 800 i 400 → inBand 6 800 j 400 → i = j) :=
  bands_partition 6 800 400 (by decide)

lemma applyCmd_home (s : AppState) (c : Cmd) : (applyCmd s c).home = s.home := by
  cases c <;> rfl

lemma foldl_applyCmd_home (cmds : List Cmd) :
    ∀ s : AppState, (cmds.foldl applyCmd s).home = s.home := by
  induction cmds with
  | nil => intro s; rfl
  | cons c cs ih =>
    intro s
    rw [List.foldl_cons, ih, applyCmd_home]

/-- Claim C9: after any sequence of user mutations, `reset` restores the
viewport exactly to the home bounds captured at construction, and leaves the
iteration budget and the palette mode unchanged. -/
theorem reset_restores_home (cmds : List Cmd) :
    (applyCmd (cmds.foldl applyCmd initState) Cmd.reset).viewport
        = initState.home ∧
    (applyCmd (cmds.foldl applyCmd initState) Cmd.reset).budget
        = (cmds.foldl applyCmd initState).budget ∧
    (applyCmd (cmds.foldl applyCmd initState) Cmd.reset).useColor
        = (cmds.foldl applyCmd initState).useColor := by
  refine ⟨?_, rfl, rfl⟩
  show (cmds.foldl applyCmd initState).home = initState.home
  exact foldl_applyCmd_home cmds initState

/-- Counterexample for claim C4: no narrowing override exists in the source.
In a state whose viewport width `3e-5` is below the claimed threshold `1e-4`
and whose stored budget is `10000`, the budget handed to the evaluator is
still `10000`, not `500`. -/
theorem narrow_no_override_counterexample :
    narrowState.viewport.xMax - narrowState.viewport.xMin < 1/10000 ∧
    effectiveMaxIter narrowState = 10000 ∧
    ¬ effectiveMaxIter narrowState = 500 := by
  refine ⟨?_, rfl, by decide⟩
  norm_num [narrowState]

/-- Claim C4 amended: the render pass always passes the stored budget itself
to the evaluator — `drawRegion` loads `currentMaxIter` with no width-based
override — even when the viewport width is below `1e-4`; the stored budget is
trivially unmodified because rendering mutates no state. -/
theorem effectiveMaxIter_no_override (s : AppState) (px py : ℤ)
    (h : s.viewport.xMax - s.viewport.xMin < 1/10000) :
    effectiveMaxIter s = s.budget ∧
    drawRegionPixel s px py =
      getColor s.useColor
        ((evaluate (pixelToComplexX s.viewport px)
            (pixelToComplexY s.viewport py) (Int.toNat s.budget) : ℕ) : ℤ)
        s.budget :=
  ⟨rfl, rfl⟩

/-- Witness for the amended claim C4 at the deep-zoom state. -/
theorem effectiveMaxIter_no_override_witness :
    effectiveMaxIter narrowState = narrowState.budget ∧
    drawRegionPixel narrowState 400 400 =
      getColor narrowState.useColor
        ((evaluate (pixelToComplexX narrowState.viewport 400)
            (pixelToComplexY narrowState.viewport 400)
            (Int.toNat narrowState.budget) : ℕ) : ℤ)
        narrowState.budget :=
  effectiveMaxIter_no_override narrowState 400 400 (by norm_num [narrowState])

/-- Claim C10: with a stored budget of `0` the evaluator's loop performs no
steps and returns `0`, which equals the budget, so every pixel is classified
interior and the rendered buffer is uniformly black. -/
theorem zero_budget_all_black (s : AppState) (px py : ℤ) (x y : ℚ)
    (h : s.budget = 0) :
    evaluate x y 0 = 0 ∧ drawRegionPixel s px py = ⟨0, 0, 0⟩ := by
  constructor
  · rfl
  · simp [drawRegionPixel, effectiveMaxIter, h, evaluate, evalFrom, getColor]

/-- Witness for claim C10 at a concrete zero-budget state. -/
theorem zero_budget_all_black_witness :
    evaluate 5 5 0 = 0 ∧ drawRegionPixel zeroBudgetState 3 4 = ⟨0, 0, 0⟩ :=
  zero_budget_all_black zeroBudgetState 3 4 5 5 (by decide)

end Fractal
